import Mathlib

/-!
Verification of the HOS (hours-of-service) planner of the Route-Trip backend.

The planner `HOSPlanner.plan` of `tripplanner/hos.py` is embedded shallowly:

* wall-clock instants are integer minutes since an (arbitrary) epoch midnight;
  `datetime.replace(hour=8, minute=0, second=0, microsecond=0)` becomes
  `startNewDay`;
* all counters (`driving_left_min`, `day_window_used`, ...) are integers, as
  in the source (Python ints);
* the `while driving_left_min > 0` loop becomes a fuel-indexed iteration
  `run` of a single-iteration function `step`; a measure argument shows the
  fuel supplied by `fuelFor` always suffices;
* the float inputs `duration_hr`, `current_cycle_used_hours` and
  `distance_mi` are modelled as exact rationals, and Python's `round`
  (banker's rounding, half to even) as `pyRound`.
-/

namespace RouteTrip

/-- Duty statuses of the log grid (`OFF`, `SLEEPER`, `DRIVING`, `ON_DUTY`). -/
inductive Status where
  | off
  | sleeper
  | driving
  | onDuty
  deriving DecidableEq

/-- A duty segment: `[start, stop)` in minutes since epoch, with duty status
and an optional event label, as the `Segment` dataclass of `hos.py`. -/
structure Segment where
  start : ℤ
  stop : ℤ
  status : Status
  label : String
  deriving DecidableEq

/-- An operational stop, as the `Stop` dataclass of `hos.py`. -/
structure Stop where
  type : String
  eta : ℤ
  durationMin : ℤ
  deriving DecidableEq

/-- The planner inputs after the integer conversions of
`HOSPlanner.__init__`, plus the fuel thresholds precomputed at the top of
`plan` (lines 100-101 of `hos.py`). -/
structure Config where
  durationMin : ℤ
  cycleMin : ℤ
  preMin : ℤ
  start : ℤ
  thresholds : List ℤ
  deriving DecidableEq

/-- The mutable state of the `plan` loop. -/
structure PlanState where
  segments : List Segment
  stops : List Stop
  cursor : ℤ
  drivingLeft : ℤ
  driven : ℤ
  driveSinceBreak : ℤ
  cycleUsed : ℤ
  dayWindow : ℤ
  dayDrive : ℤ
  pickupDone : Bool
  deriving DecidableEq

/-- Calendar date (day index) of an instant, `datetime.date()`. -/
def dateOf (t : ℤ) : ℤ := t.fdiv 1440

/-- `start_new_day`: `current.replace(hour=8, minute=0, second=0, microsecond=0)`. -/
def startNewDay (t : ℤ) : ℤ := 1440 * dateOf t + 480

/-- Python's `str.lower` on the ASCII labels used here. -/
def lowerString (t : String) : String := ⟨t.data.map Char.toLower⟩

/-- Stop type derived from the label:
`label.lower() if label != '30m Break' else 'break'`. -/
def stopType (label : String) : String :=
  if label = "30m Break" then "break" else lowerString label

/-- `add_segment` of `plan`: append the segment, count driving/on-duty
minutes toward the 70 h cycle, and record labelled stops. -/
def addSegment (s : PlanState) (minutes : ℤ) (status : Status) (label : String) :
    PlanState :=
  { s with
    segments := s.segments ++ [⟨s.cursor, s.cursor + minutes, status, label⟩],
    cycleUsed :=
      if status = Status.driving ∨ status = Status.onDuty then
        s.cycleUsed + minutes
      else s.cycleUsed,
    stops :=
      if label = "Pickup" ∨ label = "Drop" ∨ label = "Fuel" ∨ label = "30m Break" then
        s.stops ++ [⟨stopType label, s.cursor, minutes⟩]
      else s.stops }

/-- Emit the 60-minute on-duty `"Pickup"` block (lines 109-112 / 129-132 /
187-190 of `hos.py`). -/
def emitPickup (s : PlanState) : PlanState :=
  let s1 := addSegment s 60 Status.onDuty "Pickup"
  { s1 with cursor := s1.cursor + 60, dayWindow := s1.dayWindow + 60, pickupDone := true }

/-- Emit the `"34h Restart"` block and reset the cycle clock, the break
trigger and the daily budget (lines 136-144). -/
def emitRestart (s : PlanState) : PlanState :=
  let s1 := addSegment s 2040 Status.off "34h Restart"
  { s1 with
    cursor := startNewDay (s1.cursor + 2040),
    cycleUsed := 0, driveSinceBreak := 0, dayWindow := 0, dayDrive := 0 }

/-- Emit the `"30m Break"` block (lines 146-152). -/
def emitBreak (s : PlanState) : PlanState :=
  let s1 := addSegment s 30 Status.off "30m Break"
  { s1 with cursor := s1.cursor + 30, dayWindow := s1.dayWindow + 30, driveSinceBreak := 0 }

/-- `end_day_and_reset` (lines 117-124): the 10-hour off-duty reset followed
by day-start normalization. -/
def emitDayReset (s : PlanState) : PlanState :=
  let s1 := addSegment s 600 Status.off "Off Duty (reset)"
  { s1 with
    cursor := startNewDay (s1.cursor + 600),
    driveSinceBreak := 0, dayWindow := 0, dayDrive := 0 }

/-- Emit a driving block of `c` minutes and update every counter
(lines 179-185 / 198-204). -/
def driveEmit (s : PlanState) (c : ℤ) : PlanState :=
  let s1 := addSegment s c Status.driving ""
  { s1 with
    cursor := s1.cursor + c,
    dayWindow := s1.dayWindow + c,
    dayDrive := s1.dayDrive + c,
    driveSinceBreak := s1.driveSinceBreak + c,
    drivingLeft := s1.drivingLeft - c,
    driven := s1.driven + c }

/-- Emit the 30-minute on-duty `"Fuel"` block (lines 192-194). -/
def emitFuel (s : PlanState) : PlanState :=
  let s1 := addSegment s 30 Status.onDuty "Fuel"
  { s1 with cursor := s1.cursor + 30, dayWindow := s1.dayWindow + 30 }

/-- Emit the final 60-minute on-duty `"Drop"` block (lines 207-209). -/
def emitDrop (s : PlanState) : PlanState :=
  let s1 := addSegment s 60 Status.onDuty "Drop"
  { s1 with cursor := s1.cursor + 60, dayWindow := s1.dayWindow + 60 }

/-- The drive chunk of one iteration (lines 159-163):
`min(drive_room_today, drive_until_break, driving_left_min)`, floored at 15
and capped back at `driving_left_min`. -/
def chunkOf (s : PlanState) : ℤ :=
  min
    (max 15
      (min (min (min (660 - s.dayDrive) (840 - s.dayWindow)) (480 - s.driveSinceBreak))
        s.drivingLeft))
    s.drivingLeft

/-- First fuel threshold crossed by this chunk (lines 166-170). -/
def nextTOf (cfg : Config) (s : PlanState) : Option ℤ :=
  cfg.thresholds.find? (fun t => decide (s.driven < t ∧ t ≤ s.driven + chunkOf s))

/-- The pickup threshold, when the pickup boundary lies inside this chunk
(lines 172-174). -/
def pickTOf (cfg : Config) (s : PlanState) : Option ℤ :=
  if s.pickupDone = false ∧ s.driven < cfg.preMin ∧ cfg.preMin ≤ s.driven + chunkOf s then
    some cfg.preMin
  else none

/-- `split_at` (line 176): the smaller of the two candidate thresholds. -/
def splitTOf (cfg : Config) (s : PlanState) : Option ℤ :=
  match nextTOf cfg s, pickTOf cfg s with
  | some a, some b => some (min a b)
  | some a, none => some a
  | none, some b => some b
  | none, none => none

/-- The driving part of one loop iteration (lines 159-204): either drive up
to the split threshold and emit the pickup or fuel block, or drive the whole
chunk. -/
def driveStep (cfg : Config) (s : PlanState) : PlanState :=
  match splitTOf cfg s with
  | some t =>
    if pickTOf cfg s = some t then emitPickup (driveEmit s (t - s.driven))
    else emitFuel (driveEmit s (t - s.driven))
  | none => driveEmit s (chunkOf s)

/-- One iteration of the `while driving_left_min > 0` loop (lines 126-204),
with the priority-ordered dispatch of the source. -/
def step (cfg : Config) (s : PlanState) : PlanState :=
  if s.pickupDone = false ∧ cfg.preMin ≤ s.driven then emitPickup s
  else if 4200 ≤ s.cycleUsed then emitRestart s
  else if 480 ≤ s.driveSinceBreak then emitBreak s
  else if 840 ≤ s.dayWindow ∨ 660 ≤ s.dayDrive then emitDayReset s
  else driveStep cfg s

/-- Fuel-indexed iteration of `step`; stops as soon as
`driving_left_min ≤ 0`, like the source loop. -/
def run (cfg : Config) : ℕ → PlanState → PlanState
  | 0, s => s
  | n + 1, s => if 0 < s.drivingLeft then run cfg n (step cfg s) else s

/-- The state at the top of the loop (lines 94-112): counters initialized,
and the pickup emitted immediately when the driver is already at pickup. -/
def initState (cfg : Config) : PlanState :=
  let s0 : PlanState :=
    ⟨[], [], cfg.start, cfg.durationMin, 0, 0, cfg.cycleMin, 0, 0, decide (cfg.preMin = 0)⟩
  if cfg.preMin = 0 then emitPickup s0 else s0

/-- Fuel that provably dominates the loop's decreasing measure. -/
def fuelFor (cfg : Config) : ℕ := (5 * cfg.durationMin + 7).toNat

/-- The final planner state: loop until the workload is exhausted, then the
unconditional `"Drop"` (lines 206-209). -/
def planFinal (cfg : Config) : PlanState :=
  emitDrop (run cfg (fuelFor cfg) (initState cfg))

/-- The emitted segment sequence of `HOSPlanner.plan`. -/
def planSegments (cfg : Config) : List Segment := (planFinal cfg).segments

/-- Python's `round` on exact rationals: nearest integer, ties to the even
neighbour (banker's rounding). -/
def pyRound (q : ℚ) : ℤ :=
  let f := ⌊q⌋
  let r := q - f
  if r < 1 / 2 then f
  else if 1 / 2 < r then f + 1
  else if f % 2 = 0 then f else f + 1

/-- `int(round(duration_hr * 60))` (line 61 of `hos.py`). -/
def durationMinutes (h : ℚ) : ℤ := pyRound (h * 60)

/-- `int(round(current_cycle_used_hours * 60))` (line 62 of `hos.py`). -/
def cycleMinutes (h : ℚ) : ℤ := pyRound (h * 60)

/-- Round-half-up, following the spec's words ("banker-free round-half-up"),
for comparison with the implementation's `pyRound`. -/
def specRoundHalfUp (q : ℚ) : ℤ := ⌊q + 1 / 2⌋

/-- The fuel driving-minute thresholds (lines 100-101):
`round((k * 1000 / distance_mi) * duration_min)` for
`k = 1 .. floor(distance_mi / 1000)`. -/
def fuelThresholds (distanceMi : ℚ) (durationMin : ℤ) : List ℤ :=
  (List.range (⌊distanceMi / 1000⌋).toNat).map
    (fun (k : ℕ) => pyRound (((((k : ℤ) : ℚ) + 1) * 1000 / distanceMi) * (durationMin : ℚ)))

/-- The raw inputs of `HOSPlanner.__init__` (floats as exact rationals;
`startDt` in minutes since epoch, `none` when absent). -/
structure Inputs where
  distanceMi : ℚ
  durationHr : ℚ
  cycleUsedHr : ℚ
  startDt : Option ℤ
  prePickupMin : ℤ
  deriving DecidableEq

/-- `HOSPlanner.__init__` (lines 58-78): integer conversions, the clamp
`max(0, int(pre_pickup_drive_min))`, the defaulted start
`datetime.utcnow().replace(hour=8, minute=0, second=0, microsecond=0)`
(a function of the wall clock `now`), and the fuel thresholds. -/
def mkConfig (i : Inputs) (now : ℤ) : Config :=
  { durationMin := durationMinutes i.durationHr,
    cycleMin := cycleMinutes i.cycleUsedHr,
    preMin := max 0 i.prePickupMin,
    start := i.startDt.getD (startNewDay now),
    thresholds := fuelThresholds i.distanceMi (durationMinutes i.durationHr) }

/-- Sum of the durations of the `DRIVING` segments of a list. -/
def sumDriving (l : List Segment) : ℤ :=
  (l.map (fun g => if g.status = Status.driving then g.stop - g.start else 0)).sum

/-- Number of segments carrying a given label. -/
def countLabel (lab : String) (l : List Segment) : ℕ :=
  (l.filter (fun g => decide (g.label = lab))).length

/-- Boolean check that consecutive segments are monotonically non-decreasing
in time (`segment[i].end <= segment[i+1].start`). -/
def monoOk : List Segment → Bool
  | [] => true
  | [_] => true
  | a :: b :: l => (decide (a.stop ≤ b.start)) && monoOk (b :: l)

/-- Link between consecutive segments: either the earlier one is a
day-closing off-duty block (after which the clock is renormalized), or the
two are contiguous. -/
def segLink (a b : Segment) : Prop :=
  (a.label = "Off Duty (reset)" ∨ a.label = "34h Restart") ∨ a.stop = b.start

/-- Driving minutes of the workday group keyed by calendar start-date `d`
(the `day_map` grouping of lines 211-218 plus the `drive_minutes` sum of
`DayPlan.to_api`). -/
def calendarDriveMinutes (l : List Segment) (d : ℤ) : ℤ :=
  sumDriving (l.filter (fun g => decide (dateOf g.start = d)))

/-- Decreasing measure of the planner loop: the driving workload dominates,
and the four pending-clock flags break ties. -/
def mu (s : PlanState) : ℕ :=
  5 * s.drivingLeft.toNat + (if s.pickupDone = false then 3 else 0) +
    (if 4200 ≤ s.cycleUsed then 1 else 0) +
    (if 480 ≤ s.driveSinceBreak then 2 else 0) +
    (if 840 ≤ s.dayWindow ∨ 660 ≤ s.dayDrive then 1 else 0)

/-- Exhaustive characterization of what one loop iteration can do, together
with the guard facts of the branch that fired. -/
inductive StepCase (cfg : Config) (s : PlanState) : PlanState → Prop where
  | pickupLate :
      s.pickupDone = false → cfg.preMin ≤ s.driven →
      StepCase cfg s (emitPickup s)
  | restart :
      ¬(s.pickupDone = false ∧ cfg.preMin ≤ s.driven) →
      4200 ≤ s.cycleUsed →
      StepCase cfg s (emitRestart s)
  | takeBreak :
      ¬(s.pickupDone = false ∧ cfg.preMin ≤ s.driven) →
      s.cycleUsed < 4200 → 480 ≤ s.driveSinceBreak →
      StepCase cfg s (emitBreak s)
  | dayReset :
      ¬(s.pickupDone = false ∧ cfg.preMin ≤ s.driven) →
      s.cycleUsed < 4200 → s.driveSinceBreak < 480 →
      (840 ≤ s.dayWindow ∨ 660 ≤ s.dayDrive) →
      StepCase cfg s (emitDayReset s)
  | splitPickup (c t : ℤ) :
      s.cycleUsed < 4200 → s.driveSinceBreak < 480 →
      s.dayWindow < 840 → s.dayDrive < 660 →
      c ≤ s.drivingLeft → c ≤ max 15 (660 - s.dayDrive) →
      s.driven < t → t ≤ s.driven + c →
      s.pickupDone = false → t = cfg.preMin →
      StepCase cfg s (emitPickup (driveEmit s (t - s.driven)))
  | splitFuel (c t : ℤ) :
      s.cycleUsed < 4200 → s.driveSinceBreak < 480 →
      s.dayWindow < 840 → s.dayDrive < 660 →
      c ≤ s.drivingLeft → c ≤ max 15 (660 - s.dayDrive) →
      s.driven < t → t ≤ s.driven + c →
      (s.pickupDone = false → s.driven < cfg.preMin → t < cfg.preMin) →
      StepCase cfg s (emitFuel (driveEmit s (t - s.driven)))
  | driveFull (c : ℤ) :
      s.cycleUsed < 4200 → s.driveSinceBreak < 480 →
      s.dayWindow < 840 → s.dayDrive < 660 →
      1 ≤ c → c ≤ s.drivingLeft → c ≤ max 15 (660 - s.dayDrive) →
      (s.pickupDone = false → s.driven < cfg.preMin → s.driven + c < cfg.preMin) →
      StepCase cfg s (driveEmit s c)

/-- The last emitted segment either closed a day (after which the clock is
renormalized) or ends exactly at the cursor. -/
def segEndOk (l : List Segment) (c : ℤ) : Prop :=
  ∀ a, l.getLast? = some a →
    (a.label = "Off Duty (reset)" ∨ a.label = "34h Restart") ∨ a.stop = c

/-- Contiguity invariant of the loop state. -/
def ChainInv (s : PlanState) : Prop :=
  List.Chain' segLink s.segments ∧ segEndOk s.segments s.cursor

/-- Pickup/Drop bookkeeping invariant of the loop state. -/
def PInv (cfg : Config) (s : PlanState) : Prop :=
  (s.pickupDone = true → countLabel "Pickup" s.segments = 1) ∧
    (s.pickupDone = false → countLabel "Pickup" s.segments = 0 ∧ s.driven < cfg.preMin) ∧
    countLabel "Drop" s.segments = 0

/-- Python's `round(q, p)` on exact rationals. -/
def roundTo (q : ℚ) (p : ℕ) : ℚ := (pyRound (q * ((10 : ℚ) ^ p)) : ℚ) / ((10 : ℚ) ^ p)

/-- The structured output of `plan` (lines 211-230): route echo, stops
sorted by ETA, and segments grouped into calendar days. -/
structure PlanOutput where
  routeDistance : ℚ
  routeDuration : ℚ
  stops : List Stop
  days : List (ℤ × List Segment)
  deriving DecidableEq

/-- The sorted calendar dates of the emitted segments
(`sorted(day_map.keys())`, lines 213-218). -/
def dayDates (l : List Segment) : List ℤ :=
  List.insertionSort (fun a b => a ≤ b) ((l.map (fun g => dateOf g.start)).eraseDups)

/-- The full output of `HOSPlanner.plan` for given raw inputs, with the wall
clock `now` made explicit (it is consulted only when `startDt` is absent). -/
def planResult (i : Inputs) (now : ℤ) : PlanOutput :=
  let cfg := mkConfig i now
  let fin := planFinal cfg
  { routeDistance := roundTo i.distanceMi 1,
    routeDuration := roundTo ((cfg.durationMin : ℚ) / 60) 2,
    stops := List.insertionSort (fun a b => a.eta ≤ b.eta) fin.stops,
    days := (dayDates fin.segments).map
      (fun d => (d, fin.segments.filter (fun g => decide (dateOf g.start = d)))) }

@[simp] theorem emitPickup_segments (s : PlanState) : (emitPickup s).segments = s.segments ++ [⟨s.cursor, s.cursor + 60, Status.onDuty, "Pickup"⟩] := rfl
@[simp] theorem emitPickup_stops (s : PlanState) : (emitPickup s).stops = s.stops ++ [⟨"pickup", s.cursor, 60⟩] := rfl
@[simp] theorem emitPickup_cursor (s : PlanState) : (emitPickup s).cursor = s.cursor + 60 := rfl
@[simp] theorem emitPickup_drivingLeft (s : PlanState) : (emitPickup s).drivingLeft = s.drivingLeft := rfl
@[simp] theorem emitPickup_driven (s : PlanState) : (emitPickup s).driven = s.driven := rfl
@[simp] theorem emitPickup_driveSinceBreak (s : PlanState) : (emitPickup s).driveSinceBreak = s.driveSinceBreak := rfl
@[simp] theorem emitPickup_cycleUsed (s : PlanState) : (emitPickup s).cycleUsed = s.cycleUsed + 60 := rfl
@[simp] theorem emitPickup_dayWindow (s : PlanState) : (emitPickup s).dayWindow = s.dayWindow + 60 := rfl
@[simp] theorem emitPickup_dayDrive (s : PlanState) : (emitPickup s).dayDrive = s.dayDrive := rfl
@[simp] theorem emitPickup_pickupDone (s : PlanState) : (emitPickup s).pickupDone = true := rfl
@[simp] theorem emitRestart_segments (s : PlanState) : (emitRestart s).segments = s.segments ++ [⟨s.cursor, s.cursor + 2040, Status.off, "34h Restart"⟩] := rfl
@[simp] theorem emitRestart_stops (s : PlanState) : (emitRestart s).stops = s.stops := rfl
@[simp] theorem emitRestart_cursor (s : PlanState) : (emitRestart s).cursor = startNewDay (s.cursor + 2040) := rfl
@[simp] theorem emitRestart_drivingLeft (s : PlanState) : (emitRestart s).drivingLeft = s.drivingLeft := rfl
@[simp] theorem emitRestart_driven (s : PlanState) : (emitRestart s).driven = s.driven := rfl
@[simp] theorem emitRestart_driveSinceBreak (s : PlanState) : (emitRestart s).driveSinceBreak = 0 := rfl
@[simp] theorem emitRestart_cycleUsed (s : PlanState) : (emitRestart s).cycleUsed = 0 := rfl
@[simp] theorem emitRestart_dayWindow (s : PlanState) : (emitRestart s).dayWindow = 0 := rfl
@[simp] theorem emitRestart_dayDrive (s : PlanState) : (emitRestart s).dayDrive = 0 := rfl
@[simp] theorem emitRestart_pickupDone (s : PlanState) : (emitRestart s).pickupDone = s.pickupDone := rfl
@[simp] theorem emitBreak_segments (s : PlanState) : (emitBreak s).segments = s.segments ++ [⟨s.cursor, s.cursor + 30, Status.off, "30m Break"⟩] := rfl
@[simp] theorem emitBreak_stops (s : PlanState) : (emitBreak s).stops = s.stops ++ [⟨"break", s.cursor, 30⟩] := rfl
@[simp] theorem emitBreak_cursor (s : PlanState) : (emitBreak s).cursor = s.cursor + 30 := rfl
@[simp] theorem emitBreak_drivingLeft (s : PlanState) : (emitBreak s).drivingLeft = s.drivingLeft := rfl
@[simp] theorem emitBreak_driven (s : PlanState) : (emitBreak s).driven = s.driven := rfl
@[simp] theorem emitBreak_driveSinceBreak (s : PlanState) : (emitBreak s).driveSinceBreak = 0 := rfl
@[simp] theorem emitBreak_cycleUsed (s : PlanState) : (emitBreak s).cycleUsed = s.cycleUsed := rfl
@[simp] theorem emitBreak_dayWindow (s : PlanState) : (emitBreak s).dayWindow = s.dayWindow + 30 := rfl
@[simp] theorem emitBreak_dayDrive (s : PlanState) : (emitBreak s).dayDrive = s.dayDrive := rfl
@[simp] theorem emitBreak_pickupDone (s : PlanState) : (emitBreak s).pickupDone = s.pickupDone := rfl
@[simp] theorem emitDayReset_segments (s : PlanState) : (emitDayReset s).segments = s.segments ++ [⟨s.cursor, s.cursor + 600, Status.off, "Off Duty (reset)"⟩] := rfl
@[simp] theorem emitDayReset_stops (s : PlanState) : (emitDayReset s).stops = s.stops := rfl
@[simp] theorem emitDayReset_cursor (s : PlanState) : (emitDayReset s).cursor = startNewDay (s.cursor + 600) := rfl
@[simp] theorem emitDayReset_drivingLeft (s : PlanState) : (emitDayReset s).drivingLeft = s.drivingLeft := rfl
@[simp] theorem emitDayReset_driven (s : PlanState) : (emitDayReset s).driven = s.driven := rfl
@[simp] theorem emitDayReset_driveSinceBreak (s : PlanState) : (emitDayReset s).driveSinceBreak = 0 := rfl
@[simp] theorem emitDayReset_cycleUsed (s : PlanState) : (emitDayReset s).cycleUsed = s.cycleUsed := rfl
@[simp] theorem emitDayReset_dayWindow (s : PlanState) : (emitDayReset s).dayWindow = 0 := rfl
@[simp] theorem emitDayReset_dayDrive (s : PlanState) : (emitDayReset s).dayDrive = 0 := rfl
@[simp] theorem emitDayReset_pickupDone (s : PlanState) : (emitDayReset s).pickupDone = s.pickupDone := rfl
@[simp] theorem emitFuel_segments (s : PlanState) : (emitFuel s).segments = s.segments ++ [⟨s.cursor, s.cursor + 30, Status.onDuty, "Fuel"⟩] := rfl
@[simp] theorem emitFuel_stops (s : PlanState) : (emitFuel s).stops = s.stops ++ [⟨"fuel", s.cursor, 30⟩] := rfl
@[simp] theorem emitFuel_cursor (s : PlanState) : (emitFuel s).cursor = s.cursor + 30 := rfl
@[simp] theorem emitFuel_drivingLeft (s : PlanState) : (emitFuel s).drivingLeft = s.drivingLeft := rfl
@[simp] theorem emitFuel_driven (s : PlanState) : (emitFuel s).driven = s.driven := rfl
@[simp] theorem emitFuel_driveSinceBreak (s : PlanState) : (emitFuel s).driveSinceBreak = s.driveSinceBreak := rfl
@[simp] theorem emitFuel_cycleUsed (s : PlanState) : (emitFuel s).cycleUsed = s.cycleUsed + 30 := rfl
@[simp] theorem emitFuel_dayWindow (s : PlanState) : (emitFuel s).dayWindow = s.dayWindow + 30 := rfl
@[simp] theorem emitFuel_dayDrive (s : PlanState) : (emitFuel s).dayDrive = s.dayDrive := rfl
@[simp] theorem emitFuel_pickupDone (s : PlanState) : (emitFuel s).pickupDone = s.pickupDone := rfl
@[simp] theorem emitDrop_segments (s : PlanState) : (emitDrop s).segments = s.segments ++ [⟨s.cursor, s.cursor + 60, Status.onDuty, "Drop"⟩] := rfl
@[simp] theorem emitDrop_stops (s : PlanState) : (emitDrop s).stops = s.stops ++ [⟨"drop", s.cursor, 60⟩] := rfl
@[simp] theorem emitDrop_cursor (s : PlanState) : (emitDrop s).cursor = s.cursor + 60 := rfl
@[simp] theorem emitDrop_drivingLeft (s : PlanState) : (emitDrop s).drivingLeft = s.drivingLeft := rfl
@[simp] theorem emitDrop_driven (s : PlanState) : (emitDrop s).driven = s.driven := rfl
@[simp] theorem emitDrop_driveSinceBreak (s : PlanState) : (emitDrop s).driveSinceBreak = s.driveSinceBreak := rfl
@[simp] theorem emitDrop_cycleUsed (s : PlanState) : (emitDrop s).cycleUsed = s.cycleUsed + 60 := rfl
@[simp] theorem emitDrop_dayWindow (s : PlanState) : (emitDrop s).dayWindow = s.dayWindow + 60 := rfl
@[simp] theorem emitDrop_dayDrive (s : PlanState) : (emitDrop s).dayDrive = s.dayDrive := rfl
@[simp] theorem emitDrop_pickupDone (s : PlanState) : (emitDrop s).pickupDone = s.pickupDone := rfl
@[simp] theorem driveEmit_segments (s : PlanState) (c : ℤ) : (driveEmit s c).segments = s.segments ++ [⟨s.cursor, s.cursor + c, Status.driving, ""⟩] := rfl
@[simp] theorem driveEmit_stops (s : PlanState) (c : ℤ) : (driveEmit s c).stops = s.stops := rfl
@[simp] theorem driveEmit_cursor (s : PlanState) (c : ℤ) : (driveEmit s c).cursor = s.cursor + c := rfl
@[simp] theorem driveEmit_drivingLeft (s : PlanState) (c : ℤ) : (driveEmit s c).drivingLeft = s.drivingLeft - c := rfl
@[simp] theorem driveEmit_driven (s : PlanState) (c : ℤ) : (driveEmit s c).driven = s.driven + c := rfl
@[simp] theorem driveEmit_driveSinceBreak (s : PlanState) (c : ℤ) : (driveEmit s c).driveSinceBreak = s.driveSinceBreak + c := rfl
@[simp] theorem driveEmit_cycleUsed (s : PlanState) (c : ℤ) : (driveEmit s c).cycleUsed = s.cycleUsed + c := rfl
@[simp] theorem driveEmit_dayWindow (s : PlanState) (c : ℤ) : (driveEmit s c).dayWindow = s.dayWindow + c := rfl
@[simp] theorem driveEmit_dayDrive (s : PlanState) (c : ℤ) : (driveEmit s c).dayDrive = s.dayDrive + c := rfl
@[simp] theorem driveEmit_pickupDone (s : PlanState) (c : ℤ) : (driveEmit s c).pickupDone = s.pickupDone := rfl

theorem pickT_none {cfg : Config} {s : PlanState} (hP : pickTOf cfg s = none) :
    ¬(s.pickupDone = false ∧ s.driven < cfg.preMin ∧ cfg.preMin ≤ s.driven + chunkOf s) := by
  intro hc
  unfold pickTOf at hP
  rw [if_pos hc] at hP
  exact Option.noConfusion hP

theorem pickT_some {cfg : Config} {s : PlanState} {b : ℤ} (hP : pickTOf cfg s = some b) :
    b = cfg.preMin ∧ s.pickupDone = false ∧ s.driven < cfg.preMin ∧
      cfg.preMin ≤ s.driven + chunkOf s := by
  unfold pickTOf at hP
  by_cases hc : s.pickupDone = false ∧ s.driven < cfg.preMin ∧ cfg.preMin ≤ s.driven + chunkOf s
  · rw [if_pos hc] at hP
    exact ⟨(Option.some.injEq _ _ ▸ hP).symm, hc⟩
  · rw [if_neg hc] at hP
    exact Option.noConfusion hP

theorem nextT_some {cfg : Config} {s : PlanState} {a : ℤ} (hN : nextTOf cfg s = some a) :
    s.driven < a ∧ a ≤ s.driven + chunkOf s := by
  unfold nextTOf at hN
  have h := List.find?_some hN
  exact of_decide_eq_true h

theorem splitT_eq {cfg : Config} {s : PlanState} :
    splitTOf cfg s =
      match nextTOf cfg s, pickTOf cfg s with
      | some a, some b => some (min a b)
      | some a, none => some a
      | none, some b => some b
      | none, none => none := rfl

theorem driveStep_none {cfg : Config} {s : PlanState} (h : splitTOf cfg s = none) :
    driveStep cfg s = driveEmit s (chunkOf s) := by
  unfold driveStep
  rw [h]

theorem driveStep_some {cfg : Config} {s : PlanState} {t : ℤ} (h : splitTOf cfg s = some t) :
    driveStep cfg s =
      if pickTOf cfg s = some t then emitPickup (driveEmit s (t - s.driven))
      else emitFuel (driveEmit s (t - s.driven)) := by
  unfold driveStep
  rw [h]

theorem chunk_bounds {s : PlanState} (hd : 0 < s.drivingLeft) :
    1 ≤ chunkOf s ∧ chunkOf s ≤ s.drivingLeft ∧ chunkOf s ≤ max 15 (660 - s.dayDrive) := by
  unfold chunkOf
  omega

theorem step_cases (cfg : Config) (s : PlanState) (hd : 0 < s.drivingLeft) :
    StepCase cfg s (step cfg s) := by
  obtain ⟨hc1, hcd, hcm⟩ := chunk_bounds hd
  unfold step
  split_ifs with h1 h2 h3 h4
  · exact StepCase.pickupLate h1.1 h1.2
  · exact StepCase.restart h1 h2
  · exact StepCase.takeBreak h1 (by omega) h3
  · exact StepCase.dayReset h1 (by omega) (by omega) h4
  · rcases hN : nextTOf cfg s with _ | a
    · rcases hP : pickTOf cfg s with _ | b
      · have hsplit : splitTOf cfg s = none := by unfold splitTOf; rw [hN, hP]
        rw [driveStep_none hsplit]
        refine StepCase.driveFull (chunkOf s) (by omega) (by omega) (by omega) (by omega)
          hc1 hcd hcm ?_
        intro hdone hlt
        by_contra hcon
        exact pickT_none hP ⟨hdone, hlt, by omega⟩
      · obtain ⟨hb, hdone, hlt, hle⟩ := pickT_some hP
        have hsplit : splitTOf cfg s = some b := by unfold splitTOf; rw [hN, hP]
        rw [driveStep_some hsplit, if_pos hP]
        exact StepCase.splitPickup (chunkOf s) b (by omega) (by omega) (by omega) (by omega)
          hcd hcm (by omega) (by omega) hdone hb
    · rcases hP : pickTOf cfg s with _ | b
      · have hsplit : splitTOf cfg s = some a := by unfold splitTOf; rw [hN, hP]
        obtain ⟨ha1, ha2⟩ := nextT_some hN
        have hfa : ¬ pickTOf cfg s = some a := by rw [hP]; exact Option.noConfusion
        rw [driveStep_some hsplit, if_neg hfa]
        refine StepCase.splitFuel (chunkOf s) a (by omega) (by omega) (by omega) (by omega)
          hcd hcm ha1 ha2 ?_
        intro hdone hlt
        by_contra hcon
        exact pickT_none hP ⟨hdone, hlt, by omega⟩
      · obtain ⟨hb, hdone, hlt, hle⟩ := pickT_some hP
        obtain ⟨ha1, ha2⟩ := nextT_some hN
        have hsplit : splitTOf cfg s = some (min a b) := by unfold splitTOf; rw [hN, hP]
        by_cases hba : b ≤ a
        · have hmin : min a b = b := min_eq_right hba
          rw [driveStep_some hsplit, hmin, if_pos hP]
          exact StepCase.splitPickup (chunkOf s) b (by omega) (by omega) (by omega) (by omega)
            hcd hcm (by omega) (by omega) hdone hb
        · have hmin : min a b = a := min_eq_left (by omega)
          have hne : ¬ pickTOf cfg s = some a := by
            rw [hP]
            intro hcon
            have := Option.some.injEq b a ▸ hcon
            omega
          rw [driveStep_some hsplit, hmin, if_neg hne]
          refine StepCase.splitFuel (chunkOf s) a (by omega) (by omega) (by omega) (by omega)
            hcd hcm ha1 ha2 ?_
          intro _ _
          omega

theorem mu_lower (s : PlanState) : 5 * s.drivingLeft.toNat ≤ mu s := by
  unfold mu
  split_ifs <;> omega

set_option maxHeartbeats 3200000 in
theorem mu_step_lt (cfg : Config) (s : PlanState) (hd : 0 < s.drivingLeft) :
    mu (step cfg s) < mu s := by
  have h := step_cases cfg s hd
  revert h
  generalize step cfg s = s2
  intro h
  rcases h with ⟨hdone, hge⟩ | ⟨h1, hcy⟩ | ⟨h1, hcy, hbr⟩ | ⟨h1, hcy, hbr, hday⟩
    | ⟨c, t, hcy, hbr, hW, hdd, hcd, hcm, hlt, hle, hdone, ht⟩
    | ⟨c, t, hcy, hbr, hW, hdd, hcd, hcm, hlt, hle, hfa⟩
    | ⟨c, hcy, hbr, hW, hdd, hc1, hcd, hcm, hfa⟩
  all_goals simp only [mu, emitPickup_drivingLeft, emitPickup_pickupDone,
    emitPickup_cycleUsed, emitPickup_driveSinceBreak, emitPickup_dayWindow, emitPickup_dayDrive,
    emitRestart_drivingLeft, emitRestart_pickupDone, emitRestart_cycleUsed,
    emitRestart_driveSinceBreak, emitRestart_dayWindow, emitRestart_dayDrive,
    emitBreak_drivingLeft, emitBreak_pickupDone, emitBreak_cycleUsed,
    emitBreak_driveSinceBreak, emitBreak_dayWindow, emitBreak_dayDrive,
    emitDayReset_drivingLeft, emitDayReset_pickupDone, emitDayReset_cycleUsed,
    emitDayReset_driveSinceBreak, emitDayReset_dayWindow, emitDayReset_dayDrive,
    emitFuel_drivingLeft, emitFuel_pickupDone, emitFuel_cycleUsed,
    emitFuel_driveSinceBreak, emitFuel_dayWindow, emitFuel_dayDrive,
    driveEmit_drivingLeft, driveEmit_pickupDone, driveEmit_cycleUsed,
    driveEmit_driveSinceBreak, driveEmit_dayWindow, driveEmit_dayDrive]
  all_goals split_ifs <;> (try omega) <;> simp_all

theorem step_dl_nonneg (cfg : Config) (s : PlanState) (hd : 0 < s.drivingLeft) :
    0 ≤ (step cfg s).drivingLeft := by
  have h := step_cases cfg s hd
  revert h
  generalize step cfg s = s2
  intro h
  rcases h with ⟨hdone, hge⟩ | ⟨h1, hcy⟩ | ⟨h1, hcy, hbr⟩ | ⟨h1, hcy, hbr, hday⟩
    | ⟨c, t, hcy, hbr, hW, hdd, hcd, hcm, hlt, hle, hdone, ht⟩
    | ⟨c, t, hcy, hbr, hW, hdd, hcd, hcm, hlt, hle, hfa⟩
    | ⟨c, hcy, hbr, hW, hdd, hc1, hcd, hcm, hfa⟩
  all_goals simp only [emitPickup_drivingLeft, emitRestart_drivingLeft, emitBreak_drivingLeft,
    emitDayReset_drivingLeft, emitFuel_drivingLeft, driveEmit_drivingLeft]
  all_goals omega

theorem run_dl_zero (cfg : Config) :
    ∀ (n : ℕ) (s : PlanState), mu s ≤ n → 0 ≤ s.drivingLeft →
      (run cfg n s).drivingLeft = 0 := by
  intro n
  induction n with
  | zero =>
    intro s hm h0
    have := mu_lower s
    unfold run
    omega
  | succ n ih =>
    intro s hm h0
    unfold run
    by_cases hd : 0 < s.drivingLeft
    · rw [if_pos hd]
      have hlt := mu_step_lt cfg s hd
      exact ih _ (by omega) (step_dl_nonneg cfg s hd)
    · rw [if_neg hd]
      omega

theorem sumDriving_nil : sumDriving [] = 0 := rfl

theorem sumDriving_cons (g : Segment) (l : List Segment) :
    sumDriving (g :: l) =
      (if g.status = Status.driving then g.stop - g.start else 0) + sumDriving l := by
  unfold sumDriving
  rw [List.map_cons, List.sum_cons]

theorem sumDriving_append (l1 l2 : List Segment) :
    sumDriving (l1 ++ l2) = sumDriving l1 + sumDriving l2 := by
  unfold sumDriving
  rw [List.map_append, List.sum_append]

theorem step_workload (cfg : Config) (s : PlanState) (hd : 0 < s.drivingLeft) :
    (step cfg s).driven + (step cfg s).drivingLeft = s.driven + s.drivingLeft := by
  have h := step_cases cfg s hd
  revert h
  generalize step cfg s = s2
  intro h
  rcases h with ⟨hdone, hge⟩ | ⟨h1, hcy⟩ | ⟨h1, hcy, hbr⟩ | ⟨h1, hcy, hbr, hday⟩
    | ⟨c, t, hcy, hbr, hW, hdd, hcd, hcm, hlt, hle, hdone, ht⟩
    | ⟨c, t, hcy, hbr, hW, hdd, hcd, hcm, hlt, hle, hfa⟩
    | ⟨c, hcy, hbr, hW, hdd, hc1, hcd, hcm, hfa⟩
  all_goals simp
  all_goals omega

theorem step_sumDriving (cfg : Config) (s : PlanState) (hd : 0 < s.drivingLeft) :
    sumDriving (step cfg s).segments =
      sumDriving s.segments + ((step cfg s).driven - s.driven) := by
  have h := step_cases cfg s hd
  revert h
  generalize step cfg s = s2
  intro h
  rcases h with ⟨hdone, hge⟩ | ⟨h1, hcy⟩ | ⟨h1, hcy, hbr⟩ | ⟨h1, hcy, hbr, hday⟩
    | ⟨c, t, hcy, hbr, hW, hdd, hcd, hcm, hlt, hle, hdone, ht⟩
    | ⟨c, t, hcy, hbr, hW, hdd, hcd, hcm, hlt, hle, hfa⟩
    | ⟨c, hcy, hbr, hW, hdd, hc1, hcd, hcm, hfa⟩
  all_goals simp [sumDriving_append, sumDriving_cons, sumDriving_nil]

theorem run_workload (cfg : Config) :
    ∀ (n : ℕ) (s : PlanState), 0 ≤ s.drivingLeft →
      (run cfg n s).driven + (run cfg n s).drivingLeft = s.driven + s.drivingLeft ∧
        sumDriving (run cfg n s).segments - (run cfg n s).driven =
          sumDriving s.segments - s.driven := by
  intro n
  induction n with
  | zero => intro s h; exact ⟨rfl, rfl⟩
  | succ n ih =>
    intro s h
    unfold run
    by_cases hd : 0 < s.drivingLeft
    · rw [if_pos hd]
      have h1 := step_workload cfg s hd
      have h2 := step_sumDriving cfg s hd
      have h3 := step_dl_nonneg cfg s hd
      have h4 := ih (step cfg s) h3
      constructor <;> omega
    · rw [if_neg hd]
      exact ⟨rfl, rfl⟩

theorem initState_fields (cfg : Config) :
    (initState cfg).drivingLeft = cfg.durationMin ∧ (initState cfg).driven = 0 ∧
      sumDriving (initState cfg).segments = 0 ∧ (initState cfg).dayDrive = 0 ∧
      (initState cfg).driveSinceBreak = 0 ∧ (initState cfg).dayWindow ≤ 60 := by
  unfold initState
  by_cases h : cfg.preMin = 0
  · rw [if_pos h]
    simp [sumDriving]
  · rw [if_neg h]
    simp [sumDriving]

theorem mu_init_le (cfg : Config) (h : 0 ≤ cfg.durationMin) :
    mu (initState cfg) ≤ fuelFor cfg := by
  unfold initState fuelFor mu
  by_cases hp : cfg.preMin = 0
  · rw [if_pos hp]
    simp
    split_ifs <;> omega
  · rw [if_neg hp]
    simp
    split_ifs <;> omega

/-- C4: for every feasible input (`duration_min >= 0`), the sum of the
durations of all `DRIVING` segments emitted by `HOSPlanner.plan` equals the
converted total `duration_min = round(duration_hr * 60)` exactly: the loop
neither loses nor duplicates driving minutes across chunking, fuel splits,
pickup splits, breaks, resets, and restarts. -/
theorem C4_driving_sum (cfg : Config) (h : 0 ≤ cfg.durationMin) :
    sumDriving (planSegments cfg) = cfg.durationMin := by
  obtain ⟨h1, h2, h3, h4, h5, h6⟩ := initState_fields cfg
  have hdl0 : 0 ≤ (initState cfg).drivingLeft := by omega
  have hz := run_dl_zero cfg (fuelFor cfg) (initState cfg) (mu_init_le cfg h) hdl0
  obtain ⟨hw1, hw2⟩ := run_workload cfg (fuelFor cfg) (initState cfg) hdl0
  unfold planSegments planFinal
  rw [emitDrop_segments, sumDriving_append]
  simp [sumDriving_cons, sumDriving_nil]
  omega

theorem C4_driving_sum_witness :
    (0 : ℤ) ≤ (240 : ℤ) ∧ sumDriving (planSegments ⟨240, 0, 0, 480, []⟩) = 240 :=
  ⟨by decide, C4_driving_sum ⟨240, 0, 0, 480, []⟩ (by decide)⟩

/-- C7: for every feasible input (`duration_min >= 0`), the planner loop of
`HOSPlanner.plan` terminates within the `fuelFor` iteration bound (each
iteration either decreases `driving_left_min` or clears a blocking clock,
which the measure `mu` makes precise), and on exit `driving_left_min = 0`. -/
theorem C7_termination (cfg : Config) (h : 0 ≤ cfg.durationMin) :
    (run cfg (fuelFor cfg) (initState cfg)).drivingLeft = 0 := by
  obtain ⟨h1, h2, h3, h4, h5, h6⟩ := initState_fields cfg
  exact run_dl_zero cfg (fuelFor cfg) (initState cfg) (mu_init_le cfg h) (by omega)

theorem C7_termination_witness :
    (0 : ℤ) ≤ (700 : ℤ) ∧
      (run ⟨700, 0, 0, 0, []⟩ (fuelFor ⟨700, 0, 0, 0, []⟩)
          (initState ⟨700, 0, 0, 0, []⟩)).drivingLeft = 0 :=
  ⟨by decide, C7_termination ⟨700, 0, 0, 0, []⟩ (by decide)⟩

theorem pyRound_intCast (n : ℤ) : pyRound ((n : ℚ)) = n := by
  simp only [pyRound]
  rw [Int.floor_intCast]
  norm_num

theorem pyRound_ofInt (q : ℚ) (n : ℤ) (h : q = (n : ℚ)) : pyRound q = n := by
  rw [h]
  exact pyRound_intCast n

theorem durationMinutes_ofInt (q : ℚ) (n : ℤ) (h : q * 60 = (n : ℚ)) :
    durationMinutes q = n := by
  unfold durationMinutes
  exact pyRound_ofInt _ n h

theorem cycleMinutes_ofInt (q : ℚ) (n : ℤ) (h : q * 60 = (n : ℚ)) :
    cycleMinutes q = n := by
  unfold cycleMinutes
  exact pyRound_ofInt _ n h

theorem fuelThresholds_small (d : ℚ) (m : ℤ) (h : ⌊d / 1000⌋ = 0) :
    fuelThresholds d m = [] := by
  unfold fuelThresholds
  rw [h]
  rfl

theorem dayDrive_step_le (cfg : Config) (s : PlanState) (hd : 0 < s.drivingLeft)
    (h : s.dayDrive ≤ 674) : (step cfg s).dayDrive ≤ 674 := by
  have hc := step_cases cfg s hd
  revert hc
  generalize step cfg s = s2
  intro hc
  rcases hc with ⟨hdone, hge⟩ | ⟨h1, hcy⟩ | ⟨h1, hcy, hbr⟩ | ⟨h1, hcy, hbr, hday⟩
    | ⟨c, t, hcy, hbr, hW, hdd, hcd, hcm, hlt, hle, hdone, ht⟩
    | ⟨c, t, hcy, hbr, hW, hdd, hcd, hcm, hlt, hle, hfa⟩
    | ⟨c, hcy, hbr, hW, hdd, hc1, hcd, hcm, hfa⟩
  all_goals simp
  all_goals omega

theorem run_dayDrive_le (cfg : Config) :
    ∀ (n : ℕ) (s : PlanState), s.dayDrive ≤ 674 → (run cfg n s).dayDrive ≤ 674 := by
  intro n
  induction n with
  | zero => intro s h; exact h
  | succ n ih =>
    intro s h
    unfold run
    by_cases hd : 0 < s.drivingLeft
    · rw [if_pos hd]
      exact ih _ (dayDrive_step_le cfg s hd h)
    · rw [if_neg hd]
      exact h

/-- C3 amended: the planner's per-workday driving counter `day_drive_used`
never exceeds 674 minutes (the 660-minute cap plus at most 14 minutes of
overshoot from the 15-minute chunk floor).  The literal claim — at most 660
driving minutes per calendar-date group — fails, both by this overshoot and
because day-start normalization can move the clock back onto an earlier
calendar date. -/
theorem C3_amended (cfg : Config) (n : ℕ) :
    (run cfg n (initState cfg)).dayDrive ≤ 674 ∧ (planFinal cfg).dayDrive ≤ 674 := by
  obtain ⟨h1, h2, h3, h4, h5, h6⟩ := initState_fields cfg
  refine ⟨run_dayDrive_le cfg n (initState cfg) (by omega), ?_⟩
  have := run_dayDrive_le cfg (fuelFor cfg) (initState cfg) (by omega)
  unfold planFinal
  rw [emitDrop_dayDrive]
  exact this

theorem C3_counterexample :
    mkConfig ⟨2000, 65 / 3, 0, some 480, 0⟩ 0 = ⟨1300, 0, 0, 480, [650, 1300]⟩ ∧
      calendarDriveMinutes (planSegments ⟨1300, 0, 0, 480, [650, 1300]⟩) 0 = 665 ∧
      ¬ calendarDriveMinutes (planSegments ⟨1300, 0, 0, 480, [650, 1300]⟩) 0 ≤ 660 := by
  refine ⟨?_, by decide, by decide⟩
  simp only [mkConfig]
  rw [durationMinutes_ofInt (65 / 3 : ℚ) 1300 (by norm_num),
    cycleMinutes_ofInt (0 : ℚ) 0 (by norm_num)]
  have hthr : fuelThresholds 2000 1300 = [650, 1300] := by
    unfold fuelThresholds
    have h2 : ⌊(2000 : ℚ) / 1000⌋ = (2 : ℤ) := by norm_num
    rw [h2]
    have hr : List.range ((2 : ℤ).toNat) = [0, 1] := rfl
    rw [hr]
    simp only [List.map_cons, List.map_nil]
    rw [pyRound_ofInt _ 650 (by norm_num), pyRound_ofInt _ 1300 (by norm_num)]
  rw [hthr]
  rfl

/-- C2 amended: `drive_since_break_min` is 0 at planner start and is reset
to 0 by the 30-minute break, the 10-hour reset and the 34-hour restart
blocks — but the pickup, fuel and drop blocks leave it unchanged (the
implementation does not reset it at those events). -/
theorem C2_amended :
    (∀ cfg : Config, (initState cfg).driveSinceBreak = 0) ∧
      (∀ s : PlanState,
        (emitBreak s).driveSinceBreak = 0 ∧ (emitDayReset s).driveSinceBreak = 0 ∧
          (emitRestart s).driveSinceBreak = 0) ∧
      (∀ s : PlanState,
        (emitPickup s).driveSinceBreak = s.driveSinceBreak ∧
          (emitFuel s).driveSinceBreak = s.driveSinceBreak ∧
          (emitDrop s).driveSinceBreak = s.driveSinceBreak) := by
  refine ⟨?_, fun s => ⟨rfl, rfl, rfl⟩, fun s => ⟨rfl, rfl, rfl⟩⟩
  intro cfg
  obtain ⟨h1, h2, h3, h4, h5, h6⟩ := initState_fields cfg
  exact h5

theorem C2_counterexample :
    mkConfig ⟨500, 10 / 3, 0, some 480, 100⟩ 0 = ⟨200, 0, 100, 480, []⟩ ∧
      ((step ⟨200, 0, 100, 480, []⟩ (initState ⟨200, 0, 100, 480, []⟩)).segments.getLast?).map
          Segment.label = some "Pickup" ∧
      ¬ (step ⟨200, 0, 100, 480, []⟩ (initState ⟨200, 0, 100, 480, []⟩)).driveSinceBreak = 0 := by
  refine ⟨?_, by decide, by decide⟩
  simp only [mkConfig]
  rw [durationMinutes_ofInt (10 / 3 : ℚ) 200 (by norm_num),
    cycleMinutes_ofInt (0 : ℚ) 0 (by norm_num),
    fuelThresholds_small 500 200 (by norm_num)]
  rfl

theorem chain_append_seg (l : List Segment) (c : ℤ) (g : Segment) (hg : g.start = c)
    (h1 : List.Chain' segLink l) (h2 : segEndOk l c) :
    List.Chain' segLink (l ++ [g]) := by
  rw [List.chain'_append]
  refine ⟨h1, List.chain'_singleton g, ?_⟩
  intro x hx y hy
  simp only [List.head?_cons, Option.mem_def, Option.some.injEq] at hy
  subst hy
  rcases h2 x hx with h | h
  · exact Or.inl h
  · exact Or.inr (by rw [hg]; exact h)

theorem chainInv_append (l : List Segment) (cur m : ℤ) (st : Status) (lab : String)
    (cur2 : ℤ) (h1 : List.Chain' segLink l) (h2 : segEndOk l cur)
    (hcur : (lab = "Off Duty (reset)" ∨ lab = "34h Restart") ∨ cur2 = cur + m) :
    List.Chain' segLink (l ++ [⟨cur, cur + m, st, lab⟩]) ∧
      segEndOk (l ++ [⟨cur, cur + m, st, lab⟩]) cur2 := by
  refine ⟨chain_append_seg l cur ⟨cur, cur + m, st, lab⟩ rfl h1 h2, ?_⟩
  intro a ha
  rw [List.getLast?_concat] at ha
  have ha2 := Option.some.inj ha
  subst ha2
  rcases hcur with h | h
  · exact Or.inl h
  · exact Or.inr h.symm

theorem chainInv_emitPickup (s : PlanState) (h : ChainInv s) : ChainInv (emitPickup s) := by
  obtain ⟨h1, h2⟩ := h
  unfold ChainInv
  rw [emitPickup_segments, emitPickup_cursor]
  exact chainInv_append s.segments s.cursor 60 Status.onDuty "Pickup" (s.cursor + 60) h1 h2
    (Or.inr rfl)

theorem chainInv_emitRestart (s : PlanState) (h : ChainInv s) : ChainInv (emitRestart s) := by
  obtain ⟨h1, h2⟩ := h
  unfold ChainInv
  rw [emitRestart_segments, emitRestart_cursor]
  exact chainInv_append s.segments s.cursor 2040 Status.off "34h Restart" _ h1 h2
    (Or.inl (Or.inr rfl))

theorem chainInv_emitBreak (s : PlanState) (h : ChainInv s) : ChainInv (emitBreak s) := by
  obtain ⟨h1, h2⟩ := h
  unfold ChainInv
  rw [emitBreak_segments, emitBreak_cursor]
  exact chainInv_append s.segments s.cursor 30 Status.off "30m Break" (s.cursor + 30) h1 h2
    (Or.inr rfl)

theorem chainInv_emitDayReset (s : PlanState) (h : ChainInv s) :
    ChainInv (emitDayReset s) := by
  obtain ⟨h1, h2⟩ := h
  unfold ChainInv
  rw [emitDayReset_segments, emitDayReset_cursor]
  exact chainInv_append s.segments s.cursor 600 Status.off "Off Duty (reset)" _ h1 h2
    (Or.inl (Or.inl rfl))

theorem chainInv_emitFuel (s : PlanState) (h : ChainInv s) : ChainInv (emitFuel s) := by
  obtain ⟨h1, h2⟩ := h
  unfold ChainInv
  rw [emitFuel_segments, emitFuel_cursor]
  exact chainInv_append s.segments s.cursor 30 Status.onDuty "Fuel" (s.cursor + 30) h1 h2
    (Or.inr rfl)

theorem chainInv_emitDrop (s : PlanState) (h : ChainInv s) : ChainInv (emitDrop s) := by
  obtain ⟨h1, h2⟩ := h
  unfold ChainInv
  rw [emitDrop_segments, emitDrop_cursor]
  exact chainInv_append s.segments s.cursor 60 Status.onDuty "Drop" (s.cursor + 60) h1 h2
    (Or.inr rfl)

theorem chainInv_driveEmit (s : PlanState) (c : ℤ) (h : ChainInv s) :
    ChainInv (driveEmit s c) := by
  obtain ⟨h1, h2⟩ := h
  unfold ChainInv
  rw [driveEmit_segments, driveEmit_cursor]
  exact chainInv_append s.segments s.cursor c Status.driving "" (s.cursor + c) h1 h2
    (Or.inr rfl)

theorem chainInv_step (cfg : Config) (s : PlanState) (hd : 0 < s.drivingLeft)
    (h : ChainInv s) : ChainInv (step cfg s) := by
  have hc := step_cases cfg s hd
  revert hc
  generalize step cfg s = s2
  intro hc
  rcases hc with ⟨hdone, hge⟩ | ⟨h1, hcy⟩ | ⟨h1, hcy, hbr⟩ | ⟨h1, hcy, hbr, hday⟩
    | ⟨c, t, hcy, hbr, hW, hdd, hcd, hcm, hlt, hle, hdone, ht⟩
    | ⟨c, t, hcy, hbr, hW, hdd, hcd, hcm, hlt, hle, hfa⟩
    | ⟨c, hcy, hbr, hW, hdd, hc1, hcd, hcm, hfa⟩
  · exact chainInv_emitPickup s h
  · exact chainInv_emitRestart s h
  · exact chainInv_emitBreak s h
  · exact chainInv_emitDayReset s h
  · exact chainInv_emitPickup _ (chainInv_driveEmit s _ h)
  · exact chainInv_emitFuel _ (chainInv_driveEmit s _ h)
  · exact chainInv_driveEmit s _ h

theorem run_chainInv (cfg : Config) :
    ∀ (n : ℕ) (s : PlanState), ChainInv s → ChainInv (run cfg n s) := by
  intro n
  induction n with
  | zero => intro s h; exact h
  | succ n ih =>
    intro s h
    unfold run
    by_cases hd : 0 < s.drivingLeft
    · rw [if_pos hd]
      exact ih _ (chainInv_step cfg s hd h)
    · rw [if_neg hd]
      exact h

theorem initState_chainInv (cfg : Config) : ChainInv (initState cfg) := by
  have hbase : ChainInv
      ⟨[], [], cfg.start, cfg.durationMin, 0, 0, cfg.cycleMin, 0, 0,
        decide (cfg.preMin = 0)⟩ := by
    constructor
    · exact List.chain'_nil
    · intro a ha
      exact Option.noConfusion ha
  unfold initState
  by_cases h : cfg.preMin = 0
  · rw [if_pos h]
    exact chainInv_emitPickup _ hbase
  · rw [if_neg h]
    exact hbase

/-- C1 amended: within the output of `HOSPlanner.plan`, every pair of
consecutive segments is contiguous (`end = next start`) unless the earlier
segment is a day-closing off-duty block (`"Off Duty (reset)"` or
`"34h Restart"`), after which the day-start normalization may move the
clock to 08:00 of the date on which the block ended — which can lie
*before* the block's end, so the sequence is not monotone in general. -/
theorem C1_amended (cfg : Config) : List.Chain' segLink (planSegments cfg) := by
  have h := run_chainInv cfg (fuelFor cfg) (initState cfg) (initState_chainInv cfg)
  unfold planSegments planFinal
  exact (chainInv_emitDrop _ h).1

theorem C1_counterexample :
    mkConfig ⟨500, 35 / 3, 0, some 0, 0⟩ 0 = ⟨700, 0, 0, 0, []⟩ ∧
      monoOk (planSegments ⟨700, 0, 0, 0, []⟩) = false := by
  refine ⟨?_, by decide⟩
  simp only [mkConfig]
  rw [durationMinutes_ofInt (35 / 3 : ℚ) 700 (by norm_num),
    cycleMinutes_ofInt (0 : ℚ) 0 (by norm_num),
    fuelThresholds_small 500 700 (by norm_num)]
  rfl

theorem countLabel_append (lab : String) (l1 l2 : List Segment) :
    countLabel lab (l1 ++ l2) = countLabel lab l1 + countLabel lab l2 := by
  unfold countLabel
  rw [List.filter_append, List.length_append]

theorem countLabel_singleton (lab : String) (g : Segment) :
    countLabel lab [g] = if g.label = lab then 1 else 0 := by
  unfold countLabel
  by_cases h : g.label = lab
  · rw [if_pos h]
    simp [h]
  · rw [if_neg h]
    simp [h]

theorem countLabel_concat (lab : String) (l : List Segment) (g : Segment) :
    countLabel lab (l ++ [g]) = countLabel lab l + if g.label = lab then 1 else 0 := by
  rw [countLabel_append, countLabel_singleton]

theorem countLabel_nil (lab : String) : countLabel lab [] = 0 := rfl

theorem countLabel_cons (lab : String) (g : Segment) (l : List Segment) :
    countLabel lab (g :: l) = (if g.label = lab then 1 else 0) + countLabel lab l := by
  have h := countLabel_append lab [g] l
  rw [countLabel_singleton] at h
  simpa using h

theorem PInv_step (cfg : Config) (s : PlanState) (hd : 0 < s.drivingLeft)
    (h : PInv cfg s) : PInv cfg (step cfg s) := by
  obtain ⟨hp1, hp2, hp3⟩ := h
  have hc := step_cases cfg s hd
  revert hc
  generalize step cfg s = s2
  intro hc
  rcases hc with ⟨hdone, hge⟩ | ⟨h1, hcy⟩ | ⟨h1, hcy, hbr⟩ | ⟨h1, hcy, hbr, hday⟩
    | ⟨c, t, hcy, hbr, hW, hdd, hcd, hcm, hlt, hle, hdone, ht⟩
    | ⟨c, t, hcy, hbr, hW, hdd, hcd, hcm, hlt, hle, hfa⟩
    | ⟨c, hcy, hbr, hW, hdd, hc1, hcd, hcm, hfa⟩
  · exact absurd hge (by have := (hp2 hdone).2; omega)
  · exact ⟨by simpa [PInv, countLabel_append, countLabel_cons, countLabel_nil] using hp1,
      by simpa [PInv, countLabel_append, countLabel_cons, countLabel_nil] using hp2,
      by simpa [PInv, countLabel_append, countLabel_cons, countLabel_nil] using hp3⟩
  · exact ⟨by simpa [PInv, countLabel_append, countLabel_cons, countLabel_nil] using hp1,
      by simpa [PInv, countLabel_append, countLabel_cons, countLabel_nil] using hp2,
      by simpa [PInv, countLabel_append, countLabel_cons, countLabel_nil] using hp3⟩
  · exact ⟨by simpa [PInv, countLabel_append, countLabel_cons, countLabel_nil] using hp1,
      by simpa [PInv, countLabel_append, countLabel_cons, countLabel_nil] using hp2,
      by simpa [PInv, countLabel_append, countLabel_cons, countLabel_nil] using hp3⟩
  · refine ⟨fun _ => ?_, fun hq => ?_, ?_⟩
    · have := (hp2 hdone).1
      simp [countLabel_append, countLabel_cons, countLabel_nil]
      exact this
    · simp at hq
    · simpa [countLabel_append, countLabel_cons, countLabel_nil] using hp3
  · refine ⟨fun hq => ?_, fun hq => ?_, ?_⟩
    · simp only [emitFuel_pickupDone, driveEmit_pickupDone] at hq
      have := hp1 hq
      simpa [countLabel_append, countLabel_cons, countLabel_nil] using this
    · simp only [emitFuel_pickupDone, driveEmit_pickupDone] at hq
      obtain ⟨hq1, hq2⟩ := hp2 hq
      constructor
      · simpa [countLabel_append, countLabel_cons, countLabel_nil] using hq1
      · simp only [emitFuel_driven, driveEmit_driven]
        have := hfa hq hq2
        omega
    · simpa [countLabel_append, countLabel_cons, countLabel_nil] using hp3
  · refine ⟨fun hq => ?_, fun hq => ?_, ?_⟩
    · simp only [driveEmit_pickupDone] at hq
      have := hp1 hq
      simpa [countLabel_append, countLabel_cons, countLabel_nil] using this
    · simp only [driveEmit_pickupDone] at hq
      obtain ⟨hq1, hq2⟩ := hp2 hq
      constructor
      · simpa [countLabel_append, countLabel_cons, countLabel_nil] using hq1
      · simp only [driveEmit_driven]
        have := hfa hq hq2
        omega
    · simpa [countLabel_append, countLabel_cons, countLabel_nil] using hp3

theorem run_PInv (cfg : Config) :
    ∀ (n : ℕ) (s : PlanState), PInv cfg s → PInv cfg (run cfg n s) := by
  intro n
  induction n with
  | zero => intro s h; exact h
  | succ n ih =>
    intro s h
    unfold run
    by_cases hd : 0 < s.drivingLeft
    · rw [if_pos hd]
      exact ih _ (PInv_step cfg s hd h)
    · rw [if_neg hd]
      exact h

theorem initState_PInv (cfg : Config) (h0 : 0 ≤ cfg.preMin) : PInv cfg (initState cfg) := by
  unfold initState PInv
  by_cases h : cfg.preMin = 0
  · rw [if_pos h]
    refine ⟨fun _ => ?_, fun hq => ?_, ?_⟩
    · simp [countLabel_append, countLabel_cons, countLabel_nil]
    · simp at hq
    · simp [countLabel_append, countLabel_cons, countLabel_nil]
  · rw [if_neg h]
    refine ⟨fun hq => ?_, fun hq => ?_, ?_⟩
    · exact absurd (of_decide_eq_true hq) h
    · refine ⟨rfl, ?_⟩
      show (0 : ℤ) < cfg.preMin
      omega
    · rfl

/-- C6 amended: `HOSPlanner.plan` always emits exactly one `"Drop"`, as the
final segment; and it emits exactly one `"Pickup"`, before the Drop,
whenever `pre_pickup_drive_min <= duration_min` — but when
`pre_pickup_drive_min > duration_min` the pickup boundary is never reached
and no `"Pickup"` segment is emitted at all. -/
theorem C6_amended (cfg : Config) (h0 : 0 ≤ cfg.preMin) (h1 : cfg.preMin ≤ cfg.durationMin) :
    ∃ l d, planSegments cfg = l ++ [d] ∧ d.label = "Drop" ∧
      countLabel "Pickup" l = 1 ∧ countLabel "Drop" l = 0 := by
  obtain ⟨hi1, hi2, hi3, hi4, hi5, hi6⟩ := initState_fields cfg
  have hdl0 : 0 ≤ (initState cfg).drivingLeft := by omega
  have hz := run_dl_zero cfg (fuelFor cfg) (initState cfg) (mu_init_le cfg (by omega)) hdl0
  obtain ⟨hw1, hw2⟩ := run_workload cfg (fuelFor cfg) (initState cfg) hdl0
  obtain ⟨hp1, hp2, hp3⟩ := run_PInv cfg (fuelFor cfg) (initState cfg) (initState_PInv cfg h0)
  have hdone : (run cfg (fuelFor cfg) (initState cfg)).pickupDone = true := by
    cases hpd : (run cfg (fuelFor cfg) (initState cfg)).pickupDone
    · exfalso
      have := (hp2 hpd).2
      omega
    · rfl
  refine ⟨(run cfg (fuelFor cfg) (initState cfg)).segments,
    ⟨(run cfg (fuelFor cfg) (initState cfg)).cursor,
      (run cfg (fuelFor cfg) (initState cfg)).cursor + 60, Status.onDuty, "Drop"⟩,
    ?_, rfl, hp1 hdone, hp3⟩
  unfold planSegments planFinal
  rw [emitDrop_segments]

theorem C6_amended_witness :
    (0 : ℤ) ≤ 100 ∧ (100 : ℤ) ≤ 240 ∧
      ∃ l d, planSegments ⟨240, 0, 100, 480, []⟩ = l ++ [d] ∧ d.label = "Drop" ∧
        countLabel "Pickup" l = 1 ∧ countLabel "Drop" l = 0 :=
  ⟨by decide, by decide, C6_amended ⟨240, 0, 100, 480, []⟩ (by decide) (by decide)⟩

theorem C6_counterexample :
    mkConfig ⟨500, 5 / 3, 0, some 480, 200⟩ 0 = ⟨100, 0, 200, 480, []⟩ ∧
      countLabel "Pickup" (planSegments ⟨100, 0, 200, 480, []⟩) = 0 := by
  refine ⟨?_, by decide⟩
  simp only [mkConfig]
  rw [durationMinutes_ofInt (5 / 3 : ℚ) 100 (by norm_num),
    cycleMinutes_ofInt (0 : ℚ) 0 (by norm_num),
    fuelThresholds_small 500 100 (by norm_num)]
  rfl

theorem run_neg (cfg : Config) :
    ∀ (n : ℕ) (s : PlanState), s.drivingLeft ≤ 0 → run cfg n s = s := by
  intro n
  induction n with
  | zero => intro s h; rfl
  | succ n ih =>
    intro s h
    unfold run
    rw [if_neg (by omega)]

/-- C5 amended: the core performs no input validation and raises no error:
an infeasible input is simply processed.  With a negative converted
duration the loop body never runs and the plan still contains the Pickup
(when the driver is at pickup) and the final Drop; a `current_cycle_used_hours`
above 70 is likewise accepted and handled by the 34-hour-restart branch
(see the counterexample). -/
theorem C5_amended (cfg : Config) (h : cfg.durationMin < 0) :
    planSegments cfg =
      if cfg.preMin = 0 then
        [⟨cfg.start, cfg.start + 60, Status.onDuty, "Pickup"⟩,
          ⟨cfg.start + 60, cfg.start + 120, Status.onDuty, "Drop"⟩]
      else [⟨cfg.start, cfg.start + 60, Status.onDuty, "Drop"⟩] := by
  have hneg : (initState cfg).drivingLeft ≤ 0 := by
    obtain ⟨h1, h2, h3, h4, h5, h6⟩ := initState_fields cfg
    omega
  unfold planSegments planFinal
  rw [run_neg cfg (fuelFor cfg) (initState cfg) hneg]
  unfold initState
  by_cases hp : cfg.preMin = 0
  · rw [if_pos hp, if_pos hp]
    simp
    omega
  · rw [if_neg hp, if_neg hp]
    simp

theorem C5_amended_witness :
    (-300 : ℤ) < 0 ∧
      planSegments ⟨-300, 0, 0, 480, []⟩ =
        if (0 : ℤ) = 0 then
          [⟨480, 480 + 60, Status.onDuty, "Pickup"⟩,
            ⟨480 + 60, 480 + 120, Status.onDuty, "Drop"⟩]
        else [⟨480, 480 + 60, Status.onDuty, "Drop"⟩] :=
  ⟨by decide, C5_amended ⟨-300, 0, 0, 480, []⟩ (by decide)⟩

theorem C5_counterexample :
    mkConfig ⟨100, 1, 71, some 480, 0⟩ 0 = ⟨60, 4260, 0, 480, []⟩ ∧
      ¬ planSegments ⟨60, 4260, 0, 480, []⟩ = [] ∧
      (planSegments ⟨60, 4260, 0, 480, []⟩).length = 4 := by
  refine ⟨?_, by decide, by decide⟩
  simp only [mkConfig]
  rw [durationMinutes_ofInt (1 : ℚ) 60 (by norm_num),
    cycleMinutes_ofInt (71 : ℚ) 4260 (by norm_num),
    fuelThresholds_small 100 60 (by norm_num)]
  rfl

theorem pyRound_half_even (m : ℤ) (q : ℚ) (hq : q = (m : ℚ) + 1 / 2) :
    pyRound q = if m % 2 = 0 then m else m + 1 := by
  subst hq
  simp only [pyRound]
  have hf : ⌊(m : ℚ) + 1 / 2⌋ = m := by
    rw [Int.floor_int_add]
    norm_num
  rw [hf]
  have hr : (m : ℚ) + 1 / 2 - (m : ℚ) = 1 / 2 := by ring
  rw [hr]
  norm_num

/-- C8 amended: all minute arithmetic after conversion is integer, but the
threshold conversions use Python's `round`, which is banker's rounding
(round half to even), not round-half-up: a value that is exactly on a half
rounds to the nearest even integer, so for example 22.5 rounds down to 22. -/
theorem C8_amended :
    (∀ q : ℚ, durationMinutes q = pyRound (q * 60) ∧ cycleMinutes q = pyRound (q * 60)) ∧
      ∀ (m : ℤ) (q : ℚ), q = (m : ℚ) + 1 / 2 →
        pyRound q = if m % 2 = 0 then m else m + 1 :=
  ⟨fun _ => ⟨rfl, rfl⟩, pyRound_half_even⟩

theorem C8_amended_witness :
    (45 / 2 : ℚ) = ((22 : ℤ) : ℚ) + 1 / 2 ∧ pyRound (45 / 2) = 22 := by
  refine ⟨by norm_num, ?_⟩
  have h := C8_amended.2 22 (45 / 2) (by norm_num)
  simpa using h

theorem C8_counterexample :
    durationMinutes (3 / 8) = 22 ∧ specRoundHalfUp ((3 / 8) * 60) = 23 := by
  constructor
  · unfold durationMinutes
    have h : (3 / 8 : ℚ) * 60 = ((22 : ℤ) : ℚ) + 1 / 2 := by norm_num
    rw [pyRound_half_even 22 _ h]
    norm_num
  · unfold specRoundHalfUp
    norm_num

/-- C9 amended: the core is deterministic in its explicit inputs — but when
`start_dt` is absent the default start is derived from the wall clock
(`datetime.utcnow()`), so two calls with the defaulted start agree exactly
when they happen on the same UTC day; across a day boundary the defaulted
start (today 08:00) differs, and so do the outputs (see the
counterexample). -/
theorem C9_amended (i : Inputs) (now now2 : ℤ)
    (h : i.startDt = none → now.fdiv 1440 = now2.fdiv 1440) :
    planResult i now = planResult i now2 := by
  have hc : mkConfig i now = mkConfig i now2 := by
    unfold mkConfig
    cases hs : i.startDt with
    | none =>
      have h2 := h hs
      simp [hs, startNewDay, dateOf, h2]
    | some v => simp [hs]
  unfold planResult
  rw [hc]

theorem C9_amended_witness :
    planResult ⟨100, 1, 0, some 480, 0⟩ 0 = planResult ⟨100, 1, 0, some 480, 0⟩ 999 :=
  C9_amended ⟨100, 1, 0, some 480, 0⟩ 0 999 (fun hc => Option.noConfusion hc)

theorem C9_counterexample :
    mkConfig ⟨100, 1, 0, none, 0⟩ 0 = ⟨60, 0, 0, 480, []⟩ ∧
      mkConfig ⟨100, 1, 0, none, 0⟩ 1440 = ⟨60, 0, 0, 1920, []⟩ ∧
      ¬ (planResult ⟨100, 1, 0, none, 0⟩ 0).days =
        (planResult ⟨100, 1, 0, none, 0⟩ 1440).days := by
  have h1 : mkConfig ⟨100, 1, 0, none, 0⟩ 0 = ⟨60, 0, 0, 480, []⟩ := by
    simp only [mkConfig]
    rw [durationMinutes_ofInt (1 : ℚ) 60 (by norm_num),
      cycleMinutes_ofInt (0 : ℚ) 0 (by norm_num),
      fuelThresholds_small 100 60 (by norm_num)]
    rfl
  have h2 : mkConfig ⟨100, 1, 0, none, 0⟩ 1440 = ⟨60, 0, 0, 1920, []⟩ := by
    simp only [mkConfig]
    rw [durationMinutes_ofInt (1 : ℚ) 60 (by norm_num),
      cycleMinutes_ofInt (0 : ℚ) 0 (by norm_num),
      fuelThresholds_small 100 60 (by norm_num)]
    rfl
  refine ⟨h1, h2, ?_⟩
  simp only [planResult]
  rw [h1, h2]
  decide

theorem step_segs_extend (cfg : Config) (s : PlanState) (hd : 0 < s.drivingLeft) :
    ∃ t2, (step cfg s).segments = s.segments ++ t2 := by
  have hc := step_cases cfg s hd
  revert hc
  generalize step cfg s = s2
  intro hc
  rcases hc with ⟨hdone, hge⟩ | ⟨h1, hcy⟩ | ⟨h1, hcy, hbr⟩ | ⟨h1, hcy, hbr, hday⟩
    | ⟨c, t, hcy, hbr, hW, hdd, hcd, hcm, hlt, hle, hdone, ht⟩
    | ⟨c, t, hcy, hbr, hW, hdd, hcd, hcm, hlt, hle, hfa⟩
    | ⟨c, hcy, hbr, hW, hdd, hc1, hcd, hcm, hfa⟩
  all_goals simp only [emitPickup_segments, emitRestart_segments, emitBreak_segments,
    emitDayReset_segments, emitFuel_segments, driveEmit_segments]
  all_goals first
  | exact ⟨_, rfl⟩
  | exact ⟨_, List.append_assoc _ _ _⟩

theorem run_segs_extend (cfg : Config) :
    ∀ (n : ℕ) (s : PlanState), ∃ t2, (run cfg n s).segments = s.segments ++ t2 := by
  intro n
  induction n with
  | zero => intro s; exact ⟨[], (List.append_nil s.segments).symm⟩
  | succ n ih =>
    intro s
    unfold run
    by_cases hd : 0 < s.drivingLeft
    · rw [if_pos hd]
      obtain ⟨t1, h1⟩ := step_segs_extend cfg s hd
      obtain ⟨t2, h2⟩ := ih (step cfg s)
      exact ⟨t1 ++ t2, by rw [h2, h1, List.append_assoc]⟩
    · rw [if_neg hd]
      exact ⟨[], (List.append_nil s.segments).symm⟩

theorem planSegments_head (cfg : Config) (h : cfg.preMin = 0) :
    (planSegments cfg).head? =
      some ⟨cfg.start, cfg.start + 60, Status.onDuty, "Pickup"⟩ := by
  obtain ⟨t2, ht⟩ := run_segs_extend cfg (fuelFor cfg) (initState cfg)
  unfold planSegments planFinal
  rw [emitDrop_segments, ht]
  unfold initState
  rw [if_pos h]
  simp

/-- C10: a negative `pre_pickup_drive_min` is silently clamped to 0 by
`max(0, int(pre_pickup_drive_min))`, never rejected, and the planner then
behaves exactly as if the driver were already at the pickup location: the
configuration equals the one built with `pre_pickup_drive_min = 0`, and the
first emitted segment is the 60-minute on-duty Pickup, before any driving
segment. -/
theorem C10_clamp (i : Inputs) (now : ℤ) (h : i.prePickupMin < 0) :
    (mkConfig i now).preMin = 0 ∧
      mkConfig i now = mkConfig ⟨i.distanceMi, i.durationHr, i.cycleUsedHr, i.startDt, 0⟩ now ∧
      (planSegments (mkConfig i now)).head? =
        some ⟨(mkConfig i now).start, (mkConfig i now).start + 60, Status.onDuty, "Pickup"⟩ := by
  have hp : (mkConfig i now).preMin = 0 := by
    simp only [mkConfig]
    omega
  refine ⟨hp, ?_, planSegments_head (mkConfig i now) hp⟩
  unfold mkConfig
  simp
  omega

theorem C10_clamp_witness :
    (-5 : ℤ) < 0 ∧
      ((mkConfig ⟨500, 4, 0, some 480, -5⟩ 0).preMin = 0 ∧
        mkConfig ⟨500, 4, 0, some 480, -5⟩ 0 = mkConfig ⟨500, 4, 0, some 480, 0⟩ 0 ∧
        (planSegments (mkConfig ⟨500, 4, 0, some 480, -5⟩ 0)).head? =
          some ⟨(mkConfig ⟨500, 4, 0, some 480, -5⟩ 0).start,
            (mkConfig ⟨500, 4, 0, some 480, -5⟩ 0).start + 60, Status.onDuty, "Pickup"⟩) :=
  ⟨by decide, C10_clamp ⟨500, 4, 0, some 480, -5⟩ 0 (by decide)⟩

end RouteTrip
